import Mathlib

/-!
Verification development for the PostTraitementDashboard lookup-building
pipeline (`scripts` lookup builder: `normalizeName`, `findNumParcel`,
`extractCommuneFromSourceFile`, `main`).

The JavaScript source is shallowly embedded: JSON scalar values become an
inductive `JsVal`, property bags become association lists in insertion
order, JS objects used as string-keyed maps become association lists with
`alookup` (first-match) semantics, and the stateful `main` loop becomes a
fold over input files.  String operations (`trim`, `toUpperCase`,
`includes`, `replace(/ /g,'_')`) are modelled character-exactly for the
ASCII data this pipeline handles.
-/

namespace PTD

/-- Characters removed by `String.prototype.trim` (ASCII whitespace plus
NBSP and BOM, the forms that occur in this corpus). -/
def isWs (c : Char) : Bool :=
  c.toNat = 32 || c.toNat = 9 || c.toNat = 10 || c.toNat = 13 ||
  c.toNat = 11 || c.toNat = 12 || c.toNat = 160 || c.toNat = 65279

/-- `String.prototype.toUpperCase` on one character (ASCII range, which is
all the registry and variant tables use). -/
def upChar (c : Char) : Char :=
  if 97 ≤ c.toNat ∧ c.toNat ≤ 122 then Char.ofNat (c.toNat - 32) else c

/-- Remove trailing whitespace from a character list. -/
def rtrimL : List Char → List Char
  | [] => []
  | c :: rest =>
    let r := rtrimL rest
    if r.isEmpty ∧ isWs c then [] else c :: r

/-- `String.prototype.trim` on the character list: leading then trailing
whitespace removed. -/
def trimL (l : List Char) : List Char := rtrimL (l.dropWhile isWs)

def jsTrim (s : String) : String := String.mk (trimL s.data)

def jsUpper (s : String) : String := String.mk (s.data.map upChar)

/-- `commune.replace(/ /g, '_')`. -/
def underscored (s : String) : String :=
  String.mk (s.data.map (fun c => if c = ' ' then '_' else c))

/-- Is `pre` a prefix of `l`? -/
def isPrefL : List Char → List Char → Bool
  | [], _ => true
  | _ :: _, [] => false
  | a :: as, b :: bs => a = b && isPrefL as bs

/-- Does `sub` occur in `hay`?  (`String.prototype.includes`.) -/
def includesL (sub : List Char) : List Char → Bool
  | [] => sub.isEmpty
  | c :: t => isPrefL sub (c :: t) || includesL sub t

def strIncludes (hay sub : String) : Bool := includesL sub.data hay.data

/-- JSON scalar values as they reach the lookup builder's property bags.
JS numbers are modelled as integers (all parcel data uses integral
numbers; `String(n)` is then decimal notation). -/
inductive JsVal where
  | null
  | str (s : String)
  | num (n : Int)
  | bool (b : Bool)
deriving DecidableEq, Repr

/-- JS truthiness of a property value (`undefined` is represented by the
value being absent from the bag). -/
def truthy : JsVal → Bool
  | .null => false
  | .str s => !s.data.isEmpty
  | .num n => n ≠ 0
  | .bool b => b

/-- `String(v)` for the scalar values above. -/
def jsToString : JsVal → String
  | .null => "null"
  | .str s => s
  | .num n => toString n
  | .bool b => if b then "true" else "false"

/-- A feature's property bag: string-keyed JSON object in insertion
order. -/
abbrev Bag := List (String × JsVal)

/-- JS plain-object key lookup (unique keys; first match). -/
def alookup {α : Type} (k : String) : List (String × α) → Option α
  | [] => none
  | p :: rest => if p.1 = k then some p.2 else alookup k rest

/-- Value of `props[k1] || props[k2] || ...`: the first present, truthy
value, else `none` (the chain's final falsy value, which every consumer
treats like `null`/`undefined`). -/
def firstTruthyVal (props : Bag) : List String → Option JsVal
  | [] => none
  | k :: ks =>
    match alookup k props with
    | some v => if truthy v then some v else firstTruthyVal props ks
    | none => firstTruthyVal props ks

/-- Truthiness of a JS variable holding a string or `null`. -/
def optStrTruthy : Option String → Bool
  | none => false
  | some s => !s.data.isEmpty

/-- `OFFICIAL_COMMUNES` from the lookup builder. -/
def OFFICIAL_COMMUNES : List String :=
  ["BALLOU", "GABOU", "MOUDERY", "BALA", "KOAR", "SINTHIOU MALEME",
   "NDOGA BABACAR", "NETTEBOULOU", "MISSIRAH", "BANDAFASSI", "DINDEFELO",
   "TOMBORONKOTO", "DIMBOLI", "FONGOLIMBI", "MEDINA BAFFE", "BEMBOU",
   "SABODALA"]

/-- `COMMUNE_SPELLING_VARIANTS` from the lookup builder. -/
def COMMUNE_SPELLING_VARIANTS : List (String × String) :=
  [("DINDEFELLO", "DINDEFELO"), ("FONGOLEMBI", "FONGOLIMBI")]

/-- `normalizeName(v)`: `null` on falsy input, else trim + uppercase the
string form and apply the spelling-variant table (whose entry is used when
its value is truthy, as in the JS `if` test). -/
def normalizeName (v : Option JsVal) : Option String :=
  match v with
  | none => none
  | some jv =>
    if truthy jv then
      let normalized := jsUpper (jsTrim (jsToString jv))
      match alookup normalized COMMUNE_SPELLING_VARIANTS with
      | some c => if truthy (.str c) then some c else some normalized
      | none => some normalized
    else none

/-- Key spellings tried by `findNumParcel`. -/
def numKeys : List String :=
  ["Num_parcel", "NUM_PARCEL", "num_parcel", "numParcel", "num", "ID",
   "id", "Id_parcel", "IDPARCEL"]

/-- `findNumParcel(props)`: string form of the first truthy value among
the candidate keys. -/
def findNumParcel (props : Bag) : Option String :=
  (firstTruthyVal props numKeys).map jsToString

/-- `extractCommuneFromSourceFile(sourceFile)`: uppercase the string form
and return the first registry name included as a substring, retrying with
spaces replaced by underscores. -/
def extractCommuneFromSourceFile (sourceFile : JsVal) : Option String :=
  if truthy sourceFile then
    let normalized := jsUpper (jsToString sourceFile)
    match OFFICIAL_COMMUNES.find? (fun c => strIncludes normalized c) with
    | some c => some c
    | none =>
      OFFICIAL_COMMUNES.find?
        (fun c => strIncludes normalized (underscored c))
  else none

/-- The direct commune fields tried by `main`'s property chain. -/
def communeKeys : List String :=
  ["commune", "CCRCA", "CCRCA_1", "CAV", "Nom", "name"]

/-- The commune resolved for a property bag in `main`'s feature loop:
`normalizeName` over the direct-field chain, with the `source_file`
fallback when that result is falsy and a truthy `source_file` exists. -/
def resolveCommune (props : Bag) : Option String :=
  let commune := normalizeName (firstTruthyVal props communeKeys)
  if optStrTruthy commune then commune
  else
    match alookup "source_file" props with
    | some sf => if truthy sf then extractCommuneFromSourceFile sf else commune
    | none => commune

/-- One entry of `numParcelMap`. -/
structure ParcelRecord where
  commune : Option String
  properties : Bag
deriving DecidableEq, Repr

/-- One entry of `communeMap`. -/
structure CommuneAgg where
  count : Nat
  parcels : List String
deriving DecidableEq, Repr

/-- The two output maps built by `main`, in JS object insertion order. -/
structure BuildState where
  numParcelMap : List (String × ParcelRecord)
  communeMap : List (String × CommuneAgg)
deriving DecidableEq, Repr

/-- One GeoJSON feature (`feat.properties || {}`; geometry ignored by the
builder). -/
structure Feature where
  properties : Option Bag
deriving DecidableEq, Repr

/-- A parsed input document (`gj.features || []`). -/
structure GeoJson where
  features : Option (List Feature)
deriving DecidableEq, Repr

/-- One selected input file: `none` models contents on which `JSON.parse`
throws. -/
abbrev InputFile := Option GeoJson

/-- In-place update of the entry at key `k` of a JS object modelled as an
association list. -/
def updA {α : Type} (m : List (String × α)) (k : String) (f : α → α) :
    List (String × α) :=
  m.map (fun p => if p.1 = k then (p.1, f p.2) else p)

/-- The `numParcelMap` update for one feature with truthy identifier `n`:
create the record on first sighting (`commune || null`), else backfill a
falsy stored commune from a truthy one
(`if (!numParcelMap[num].commune && commune)`); the property bag is never
touched again. -/
def updateParcel (m : List (String × ParcelRecord)) (n : String)
    (commune : Option String) (props : Bag) : List (String × ParcelRecord) :=
  match alookup n m with
  | none =>
    m ++ [(n, ⟨if optStrTruthy commune then commune else none, props⟩)]
  | some r0 =>
    if optStrTruthy r0.commune = false ∧ optStrTruthy commune = true then
      updA m n (fun r => { r with commune := commune })
    else m

/-- The `communeMap` update for one feature with truthy identifier `n`:
`if (commune && communeMap[commune])` increment the count and append the
identifier while under the 1000 cap. -/
def updateCommune (m : List (String × CommuneAgg)) (commune : Option String)
    (n : String) : List (String × CommuneAgg) :=
  match commune with
  | none => m
  | some c =>
    if c.data.isEmpty then m
    else
      match alookup c m with
      | some _ =>
        updA m c (fun a =>
          ⟨a.count + 1,
           if a.parcels.length < 1000 then a.parcels ++ [n] else a.parcels⟩)
      | none => m

/-- The body of `main`'s feature loop. -/
def processFeature (st : BuildState) (feat : Feature) : BuildState :=
  let props := feat.properties.getD []
  let num := findNumParcel props
  let commune := resolveCommune props
  if optStrTruthy num then
    let n := num.getD ""
    ⟨updateParcel st.numParcelMap n commune props,
     updateCommune st.communeMap commune n⟩
  else st

/-- The body of `main`'s file loop: a file whose contents fail to parse is
skipped (`catch ... continue`). -/
def processFile (st : BuildState) (file : InputFile) : BuildState :=
  match file with
  | none => st
  | some gj => (gj.features.getD []).foldl processFeature st

/-- `communeMap` after initialization with every official commune. -/
def initState : BuildState :=
  ⟨[], OFFICIAL_COMMUNES.map (fun c => (c, ⟨0, []⟩))⟩

/-- The whole of `main`'s lookup construction over the selected files. -/
def runBuilder (files : List InputFile) : BuildState :=
  files.foldl processFile initState

/-! ### Observation functions

Pure descriptions of what the loop does per feature, used to state the
run-level invariants. -/

def featProps (feat : Feature) : Bag := feat.properties.getD []

def featNum (feat : Feature) : Option String := findNumParcel (featProps feat)

def featCommune (feat : Feature) : Option String :=
  resolveCommune (featProps feat)

/-- `commune || null`: what the builder stores as a record's commune. -/
def storedCommune (c : Option String) : Option String :=
  if optStrTruthy c then c else none

/-- One sighting of a parcel identifier: the commune the builder would
store for it and the property bag it carried. -/
structure Sighting where
  commune : Option String
  props : Bag
deriving DecidableEq, Repr

/-- The sightings of identifier `n` contributed by one feature. -/
def featSightings (n : String) (feat : Feature) : List Sighting :=
  if optStrTruthy (featNum feat) ∧ featNum feat = some n then
    [⟨storedCommune (featCommune feat), featProps feat⟩]
  else []

/-- The identifiers one feature attributes to commune `c` (nonempty only
when both the identifier and the resolved commune are truthy and the
commune is `c`). -/
def featAttr (c : String) (feat : Feature) : List String :=
  if optStrTruthy (featNum feat) ∧ optStrTruthy (featCommune feat)
      ∧ featCommune feat = some c then
    [(featNum feat).getD ""]
  else []

/-- The features of one input file, in order (a parse failure contributes
none). -/
def featsOfFile (file : InputFile) : List Feature :=
  match file with
  | none => []
  | some gj => gj.features.getD []

/-- All processed features of a run, in processing order. -/
def allFeatures (files : List InputFile) : List Feature :=
  files.flatMap featsOfFile

/-- All sightings of identifier `n` in a run, in processing order. -/
def sightings (files : List InputFile) (n : String) : List Sighting :=
  (allFeatures files).flatMap (featSightings n)

/-- All identifiers attributed to commune `c` in a run, in processing
order. -/
def attributions (files : List InputFile) (c : String) : List String :=
  (allFeatures files).flatMap (featAttr c)

/-- The parcel record that a sighting history determines: first bag,
first truthy commune. -/
def recordOf : List Sighting → Option ParcelRecord
  | [] => none
  | s :: rest =>
    some ⟨List.findSome? (fun t => t.commune) (s :: rest), s.props⟩

/-! ### Association-list lemmas -/

theorem alookup_cons {α : Type} (k : String) (p : String × α)
    (rest : List (String × α)) :
    alookup k (p :: rest) = if p.1 = k then some p.2 else alookup k rest := rfl

theorem updA_cons {α : Type} (k : String) (f : α → α) (p : String × α)
    (rest : List (String × α)) :
    updA (p :: rest) k f =
      (if p.1 = k then (p.1, f p.2) else p) :: updA rest k f := rfl

theorem alookup_append {α : Type} (k : String) (l₁ l₂ : List (String × α)) :
    alookup k (l₁ ++ l₂) =
      match alookup k l₁ with
      | some v => some v
      | none => alookup k l₂ := by
  induction l₁ with
  | nil => simp [alookup]
  | cons p rest ih =>
    by_cases h : p.1 = k
    · simp [alookup_cons, h]
    · simp only [List.cons_append, alookup_cons, h, if_false, ih]

theorem alookup_updA_self {α : Type} (k : String) (m : List (String × α))
    (f : α → α) : alookup k (updA m k f) = (alookup k m).map f := by
  induction m with
  | nil => rfl
  | cons p rest ih =>
    by_cases h : p.1 = k
    · simp [updA_cons, alookup_cons, h]
    · simp only [updA_cons, h, if_false, alookup_cons, ih]

theorem alookup_updA_ne {α : Type} (k k' : String) (m : List (String × α))
    (f : α → α) (h : k ≠ k') : alookup k (updA m k' f) = alookup k m := by
  induction m with
  | nil => rfl
  | cons p rest ih =>
    by_cases hp : p.1 = k'
    · have hk : ¬ k' = k := fun he => h he.symm
      simp only [updA_cons, hp, if_true, alookup_cons, hk, if_false, ih]
    · by_cases hk : p.1 = k
      · simp [updA_cons, alookup_cons, hp, hk, h]
      · simp only [updA_cons, hp, if_false, alookup_cons, hk, ih]

theorem updA_fst {α : Type} (k : String) (m : List (String × α)) (f : α → α) :
    (updA m k f).map Prod.fst = m.map Prod.fst := by
  induction m with
  | nil => rfl
  | cons p rest ih =>
    by_cases h : p.1 = k
    · simp only [updA_cons, h, if_true, List.map_cons, ih]
    · simp only [updA_cons, h, if_false, List.map_cons, ih]

theorem alookup_map_pair (c : String) {α : Type} (v : α) (l : List String)
    (h : c ∈ l) : alookup c (l.map (fun x => (x, v))) = some v := by
  induction l with
  | nil => cases h
  | cons a rest ih =>
    by_cases ha : a = c
    · simp [alookup_cons, ha]
    · have hm : c ∈ rest := by
        cases h with
        | head => exact absurd rfl ha
        | tail _ h' => exact h'
      simp [alookup_cons, ha, ih hm]

theorem alookup_eq_none_of_not_mem_fst {α : Type} (k : String)
    (m : List (String × α)) (h : k ∉ m.map Prod.fst) : alookup k m = none := by
  induction m with
  | nil => rfl
  | cons p rest ih =>
    simp only [List.map_cons, List.mem_cons] at h
    push_neg at h
    have hp : ¬ p.1 = k := fun he => h.1 he.symm
    simp [alookup_cons, hp, ih h.2]

/-! ### Character and trim lemmas (for canonicalizer idempotence) -/

theorem toNat_ofNat_lower (n : Nat) (h1 : 97 ≤ n) (h2 : n ≤ 122) :
    (Char.ofNat (n - 32)).toNat = n - 32 := by
  interval_cases n <;> decide

theorem upChar_upChar (c : Char) : upChar (upChar c) = upChar c := by
  unfold upChar
  by_cases h : 97 ≤ c.toNat ∧ c.toNat ≤ 122
  · rw [if_pos h, toNat_ofNat_lower c.toNat h.1 h.2]
    have : ¬ (97 ≤ c.toNat - 32 ∧ c.toNat - 32 ≤ 122) := by omega
    rw [if_neg this]
  · rw [if_neg h, if_neg h]

theorem isWs_upChar (c : Char) : isWs (upChar c) = isWs c := by
  unfold upChar
  by_cases h : 97 ≤ c.toNat ∧ c.toNat ≤ 122
  · rw [if_pos h]
    unfold isWs
    rw [toNat_ofNat_lower c.toNat h.1 h.2]
    rw [Bool.eq_iff_iff]
    simp only [Bool.or_eq_true, decide_eq_true_eq]
    constructor <;> intro hx <;> omega
  · rw [if_neg h]

theorem dropWhile_dropWhile {α : Type} (p : α → Bool) (l : List α) :
    List.dropWhile p (List.dropWhile p l) = List.dropWhile p l := by
  induction l with
  | nil => rfl
  | cons a rest ih =>
    by_cases h : p a
    · simp [List.dropWhile_cons, h, ih]
    · simp [List.dropWhile_cons, h]

theorem rtrimL_cons (c : Char) (rest : List Char) :
    rtrimL (c :: rest) =
      if (rtrimL rest).isEmpty = true ∧ isWs c = true then []
      else c :: rtrimL rest := rfl

theorem isEmpty_map {α β : Type} (f : α → β) (l : List α) :
    (l.map f).isEmpty = l.isEmpty := by
  cases l <;> rfl

theorem rtrimL_rtrimL (l : List Char) : rtrimL (rtrimL l) = rtrimL l := by
  induction l with
  | nil => rfl
  | cons c rest ih =>
    rw [rtrimL_cons]
    by_cases h : (rtrimL rest).isEmpty = true ∧ isWs c = true
    · rw [if_pos h]
      rfl
    · rw [if_neg h, rtrimL_cons, ih, if_neg h]

theorem length_dropWhile_le' {α : Type} (p : α → Bool) (l : List α) :
    (List.dropWhile p l).length ≤ l.length := by
  induction l with
  | nil => exact Nat.le_refl 0
  | cons a rest ih =>
    rw [List.dropWhile_cons]
    by_cases h : p a
    · rw [if_pos h]
      exact Nat.le_succ_of_le ih
    · rw [if_neg h]

theorem dropWhile_rtrimL (l : List Char) (h : List.dropWhile isWs l = l) :
    List.dropWhile isWs (rtrimL l) = rtrimL l := by
  cases l with
  | nil => rfl
  | cons c rest =>
    have hc : isWs c = false := by
      by_contra hcc
      have hc' : isWs c = true := by
        cases hx : isWs c
        · exact absurd hx hcc
        · rfl
      rw [List.dropWhile_cons, if_pos hc'] at h
      have hlen := congrArg List.length h
      have hle := length_dropWhile_le' isWs rest
      simp at hlen
      omega
    rw [rtrimL_cons]
    by_cases he : (rtrimL rest).isEmpty = true ∧ isWs c = true
    · rw [hc] at he
      exact absurd he.2 (by simp)
    · rw [if_neg he, List.dropWhile_cons, hc]
      simp

theorem trimL_trimL (l : List Char) : trimL (trimL l) = trimL l := by
  unfold trimL
  rw [dropWhile_rtrimL _ (dropWhile_dropWhile isWs l), rtrimL_rtrimL]

theorem rtrimL_map_upChar (l : List Char) :
    rtrimL (l.map upChar) = (rtrimL l).map upChar := by
  induction l with
  | nil => rfl
  | cons c rest ih =>
    rw [List.map_cons, rtrimL_cons, ih, isEmpty_map, isWs_upChar, rtrimL_cons]
    by_cases h : (rtrimL rest).isEmpty = true ∧ isWs c = true
    · rw [if_pos h, if_pos h]
      rfl
    · rw [if_neg h, if_neg h, List.map_cons]

theorem dropWhile_map_upChar (l : List Char) :
    List.dropWhile isWs (l.map upChar) = (List.dropWhile isWs l).map upChar := by
  have hfun : (isWs ∘ upChar) = isWs := funext isWs_upChar
  rw [List.dropWhile_map, hfun]

theorem trimL_map_upChar (l : List Char) :
    trimL (l.map upChar) = (trimL l).map upChar := by
  unfold trimL
  rw [dropWhile_map_upChar, rtrimL_map_upChar]

theorem map_upChar_idem (l : List Char) :
    (l.map upChar).map upChar = l.map upChar := by
  rw [List.map_map]
  apply List.map_congr_left
  intro c _
  exact upChar_upChar c

/-- The canonical form `jsUpper (jsTrim s)` is a fixed point of
`jsUpper ∘ jsTrim`. -/
theorem jsUpper_jsTrim_fixed (s : String) :
    jsUpper (jsTrim (jsUpper (jsTrim s))) = jsUpper (jsTrim s) := by
  apply String.ext
  show (trimL (trimL s.data |>.map upChar)).map upChar = (trimL s.data).map upChar
  rw [trimL_map_upChar, trimL_trimL, map_upChar_idem]

/-! ### Run-level invariants of the builder -/

theorem processFeature_eq (st : BuildState) (feat : Feature) :
    processFeature st feat =
      if optStrTruthy (featNum feat) then
        ⟨updateParcel st.numParcelMap ((featNum feat).getD "")
           (featCommune feat) (featProps feat),
         updateCommune st.communeMap (featCommune feat)
           ((featNum feat).getD "")⟩
      else st := rfl

theorem processFile_eq (st : BuildState) (file : InputFile) :
    processFile st file = (featsOfFile file).foldl processFeature st := by
  cases file <;> rfl

theorem foldl_processFile (files : List InputFile) :
    ∀ st : BuildState,
      files.foldl processFile st =
        (files.flatMap featsOfFile).foldl processFeature st := by
  induction files with
  | nil => intro st; rfl
  | cons f fs ih =>
    intro st
    rw [List.foldl_cons, List.flatMap_cons, List.foldl_append,
      processFile_eq, ih]

theorem runBuilder_eq (files : List InputFile) :
    runBuilder files = (allFeatures files).foldl processFeature initState :=
  foldl_processFile files initState

theorem featAttr_nil_of_num (c : String) (feat : Feature)
    (h : ¬ optStrTruthy (featNum feat) = true) : featAttr c feat = [] := by
  unfold featAttr
  rw [if_neg]
  intro hcon
  exact h hcon.1

theorem featAttr_nil_of_commune (c : String) (feat : Feature)
    (h : ¬ featCommune feat = some c) : featAttr c feat = [] := by
  unfold featAttr
  rw [if_neg]
  intro hcon
  exact h hcon.2.2

theorem featAttr_nil_of_commune_falsy (c : String) (feat : Feature)
    (h : ¬ optStrTruthy (featCommune feat) = true) : featAttr c feat = [] := by
  unfold featAttr
  rw [if_neg]
  intro hcon
  exact h hcon.2.1

theorem featAttr_cons (c : String) (feat : Feature)
    (h1 : optStrTruthy (featNum feat) = true)
    (h2 : optStrTruthy (featCommune feat) = true)
    (h3 : featCommune feat = some c) :
    featAttr c feat = [(featNum feat).getD ""] := by
  unfold featAttr
  rw [if_pos ⟨h1, h2, h3⟩]

/-- The capped-append that `main` performs coincides with `take 1000` of
the uncapped attribution list. -/
theorem bump_take (A : List String) (n : String) :
    (if (A.take 1000).length < 1000 then A.take 1000 ++ [n] else A.take 1000)
      = (A ++ [n]).take 1000 := by
  rw [List.length_take]
  by_cases hlt : A.length < 1000
  · rw [if_pos (by omega : 1000 ⊓ A.length < 1000),
      List.take_of_length_le (by omega : A.length ≤ 1000),
      List.take_of_length_le
        (by rw [List.length_append]; simp; omega : (A ++ [n]).length ≤ 1000)]
  · rw [if_neg (by omega : ¬ 1000 ⊓ A.length < 1000),
      List.take_append_eq_append_take,
      (by omega : 1000 - A.length = 0), List.take_zero, List.append_nil]

theorem updateCommune_none (m : List (String × CommuneAgg)) (n : String) :
    updateCommune m none n = m := rfl

theorem updateCommune_some (m : List (String × CommuneAgg)) (c n : String) :
    updateCommune m (some c) n =
      if c.data.isEmpty then m
      else
        match alookup c m with
        | some _ =>
          updA m c (fun a =>
            ⟨a.count + 1,
             if a.parcels.length < 1000 then a.parcels ++ [n] else a.parcels⟩)
        | none => m := rfl

theorem commune_step (st : BuildState) (feat : Feature) (c : String)
    (A : List String)
    (h : alookup c st.communeMap = some ⟨A.length, A.take 1000⟩) :
    alookup c (processFeature st feat).communeMap =
      some ⟨(A ++ featAttr c feat).length, (A ++ featAttr c feat).take 1000⟩ := by
  rw [processFeature_eq]
  by_cases hnum : optStrTruthy (featNum feat) = true
  · rw [if_pos hnum]
    show alookup c (updateCommune st.communeMap (featCommune feat)
      ((featNum feat).getD "")) = _
    cases hcom : featCommune feat with
    | none =>
      rw [updateCommune_none,
        featAttr_nil_of_commune_falsy c feat (by rw [hcom]; decide)]
      simpa using h
    | some c' =>
      rw [updateCommune_some]
      by_cases hce : c'.data.isEmpty = true
      · rw [if_pos hce,
          featAttr_nil_of_commune_falsy c feat
            (by rw [hcom]; show ¬ (!c'.data.isEmpty) = true; rw [hce]; decide)]
        simpa using h
      · rw [if_neg hce]
        by_cases hc'c : c' = c
        · subst hc'c
          simp only [h]
          rw [alookup_updA_self, h,
            featAttr_cons c' feat hnum
              (by rw [hcom]; show (!c'.data.isEmpty) = true; simpa using hce)
              hcom]
          simp only [Option.map_some']
          rw [bump_take]
          simp
        · rw [featAttr_nil_of_commune c feat
            (by rw [hcom]; intro hx; exact hc'c (by injection hx))]
          cases halk : alookup c' st.communeMap with
          | none => simpa using h
          | some a =>
            simp only [halk]
            rw [alookup_updA_ne c c' st.communeMap _
              (fun he => hc'c he.symm)]
            simpa using h
  · rw [if_neg hnum, featAttr_nil_of_num c feat hnum]
    simpa using h

theorem commune_fold (c : String) (feats : List Feature) :
    ∀ (st : BuildState) (A : List String),
      alookup c st.communeMap = some ⟨A.length, A.take 1000⟩ →
      alookup c ((feats.foldl processFeature st).communeMap) =
        some ⟨(A ++ feats.flatMap (featAttr c)).length,
              (A ++ feats.flatMap (featAttr c)).take 1000⟩ := by
  induction feats with
  | nil =>
    intro st A h
    simpa using h
  | cons f fs ih =>
    intro st A h
    rw [List.foldl_cons, List.flatMap_cons, ← List.append_assoc]
    exact ih (processFeature st f) (A ++ featAttr c f) (commune_step st f c A h)

theorem init_commune (c : String) (hc : c ∈ OFFICIAL_COMMUNES) :
    alookup c initState.communeMap = some ⟨0, []⟩ := by
  show alookup c (OFFICIAL_COMMUNES.map
    (fun x => (x, (⟨0, []⟩ : CommuneAgg)))) = some ⟨0, []⟩
  exact alookup_map_pair c (⟨0, []⟩ : CommuneAgg) OFFICIAL_COMMUNES hc

/-- Master invariant of the commune lookup: for every official commune,
the stored aggregate is the length of its attribution list together with
its first 1000 entries. -/
theorem commune_master (files : List InputFile) (c : String)
    (hc : c ∈ OFFICIAL_COMMUNES) :
    alookup c (runBuilder files).communeMap =
      some ⟨(attributions files c).length, (attributions files c).take 1000⟩ := by
  rw [runBuilder_eq]
  have h0 : alookup c initState.communeMap =
      some ⟨([] : List String).length, ([] : List String).take 1000⟩ := by
    simpa using init_commune c hc
  have hmain := commune_fold c (allFeatures files) initState [] h0
  simpa [attributions] using hmain

theorem communeMap_fst_step (st : BuildState) (feat : Feature) :
    (processFeature st feat).communeMap.map Prod.fst =
      st.communeMap.map Prod.fst := by
  rw [processFeature_eq]
  by_cases h : optStrTruthy (featNum feat) = true
  · rw [if_pos h]
    show (updateCommune st.communeMap (featCommune feat)
      ((featNum feat).getD "")).map Prod.fst = _
    cases featCommune feat with
    | none => rw [updateCommune_none]
    | some c' =>
      rw [updateCommune_some]
      by_cases hce : c'.data.isEmpty = true
      · rw [if_pos hce]
      · rw [if_neg hce]
        cases halk : alookup c' st.communeMap with
        | none => simp only [halk]
        | some a =>
          simp only [halk]
          rw [updA_fst]
  · rw [if_neg h]

theorem communeMap_keys (files : List InputFile) :
    (runBuilder files).communeMap.map Prod.fst = OFFICIAL_COMMUNES := by
  rw [runBuilder_eq]
  have hfold : ∀ (feats : List Feature) (st : BuildState),
      ((feats.foldl processFeature st).communeMap).map Prod.fst =
        st.communeMap.map Prod.fst := by
    intro feats
    induction feats with
    | nil => intro st; rfl
    | cons f fs ih =>
      intro st
      rw [List.foldl_cons, ih, communeMap_fst_step]
  rw [hfold]
  show (OFFICIAL_COMMUNES.map
    (fun c => (c, (⟨0, []⟩ : CommuneAgg)))).map Prod.fst = _
  rw [List.map_map]
  have hcomp : (Prod.fst ∘ fun c : String => (c, (⟨0, []⟩ : CommuneAgg))) =
      id := rfl
  rw [hcomp, List.map_id]

/-! ### Parcel-record invariant -/

theorem featSightings_nil_of_num (n : String) (feat : Feature)
    (h : ¬ optStrTruthy (featNum feat) = true) : featSightings n feat = [] := by
  unfold featSightings
  rw [if_neg]
  intro hcon
  exact h hcon.1

theorem featSightings_nil_of_ne (n : String) (feat : Feature)
    (h : ¬ featNum feat = some n) : featSightings n feat = [] := by
  unfold featSightings
  rw [if_neg]
  intro hcon
  exact h hcon.2

theorem featSightings_cons (n : String) (feat : Feature)
    (h1 : optStrTruthy (featNum feat) = true)
    (h2 : featNum feat = some n) :
    featSightings n feat =
      [⟨storedCommune (featCommune feat), featProps feat⟩] := by
  unfold featSightings
  rw [if_pos ⟨h1, h2⟩]

/-- A sighting's stored commune is either absent or truthy — `""` is
never stored, because the builder stores `commune || null` on creation
and only a truthy commune on backfill. -/
def goodSighting (t : Sighting) : Prop :=
  t.commune = none ∨ optStrTruthy t.commune = true

theorem featSightings_good (n : String) (feat : Feature) :
    ∀ t ∈ featSightings n feat, goodSighting t := by
  intro t ht
  unfold featSightings at ht
  by_cases hcond : optStrTruthy (featNum feat) = true ∧ featNum feat = some n
  · rw [if_pos hcond] at ht
    have hteq : t = ⟨storedCommune (featCommune feat), featProps feat⟩ := by
      cases ht with
      | head => rfl
      | tail _ hx => cases hx
    rw [hteq]
    unfold goodSighting storedCommune
    by_cases hct : optStrTruthy (featCommune feat) = true
    · right
      show optStrTruthy (if optStrTruthy (featCommune feat) = true
        then featCommune feat else none) = true
      rw [if_pos hct]
      exact hct
    · left
      show (if optStrTruthy (featCommune feat) = true
        then featCommune feat else none) = none
      rw [if_neg hct]
  · rw [if_neg hcond] at ht
    cases ht

theorem optStrTruthy_some_getD (o : Option String)
    (h : optStrTruthy o = true) : o = some (o.getD "") := by
  cases o with
  | none => cases h
  | some s => rfl

theorem findSome?_append_of_none {α β : Type} (f : α → Option β)
    (l₁ l₂ : List α) (h : List.findSome? f l₁ = none) :
    List.findSome? f (l₁ ++ l₂) = List.findSome? f l₂ := by
  induction l₁ with
  | nil => rfl
  | cons a rest ih =>
    rw [List.findSome?_cons] at h
    rw [List.cons_append, List.findSome?_cons]
    cases hfa : f a with
    | none =>
      rw [hfa] at h
      exact ih h
    | some b => rw [hfa] at h; exact Option.noConfusion h

theorem findSome?_append_of_some {α β : Type} (f : α → Option β)
    (l₁ l₂ : List α) (b : β) (h : List.findSome? f l₁ = some b) :
    List.findSome? f (l₁ ++ l₂) = some b := by
  induction l₁ with
  | nil => cases h
  | cons a rest ih =>
    rw [List.findSome?_cons] at h
    rw [List.cons_append, List.findSome?_cons]
    cases hfa : f a with
    | none =>
      rw [hfa] at h
      exact ih h
    | some b' => rw [hfa] at h; exact h

theorem findSome?_singleton {α β : Type} (f : α → Option β) (a : α) :
    List.findSome? f [a] = f a := by
  rw [List.findSome?_cons]
  cases f a <;> rfl

theorem recordOf_nil : recordOf [] = none := rfl

theorem recordOf_cons (s : Sighting) (rest : List Sighting) :
    recordOf (s :: rest) =
      some ⟨List.findSome? (fun t => t.commune) (s :: rest), s.props⟩ := rfl

theorem parcel_step (st : BuildState) (feat : Feature) (n : String)
    (S : List Sighting) (hS : ∀ t ∈ S, goodSighting t)
    (h : alookup n st.numParcelMap = recordOf S) :
    alookup n (processFeature st feat).numParcelMap =
      recordOf (S ++ featSightings n feat) := by
  rw [processFeature_eq]
  by_cases hnum : optStrTruthy (featNum feat) = true
  case neg =>
    rw [if_neg hnum, featSightings_nil_of_num n feat hnum, List.append_nil]
    exact h
  case pos =>
    rw [if_pos hnum]
    show alookup n (updateParcel st.numParcelMap ((featNum feat).getD "")
      (featCommune feat) (featProps feat)) = _
    unfold updateParcel
    by_cases hn : (featNum feat).getD "" = n
    case neg =>
      rw [featSightings_nil_of_ne n feat
        (fun he => hn (by rw [he]; rfl)), List.append_nil]
      cases halk : alookup ((featNum feat).getD "") st.numParcelMap with
      | none =>
        simp only [halk]
        rw [alookup_append]
        cases hrec : alookup n st.numParcelMap with
        | some v => rw [hrec] at h; exact h
        | none =>
          rw [hrec] at h
          rw [alookup_cons]
          simp only [hn, if_false]
          exact h
      | some r0 =>
        simp only [halk]
        by_cases hcond : optStrTruthy r0.commune = false ∧
            optStrTruthy (featCommune feat) = true
        · rw [if_pos hcond,
            alookup_updA_ne n ((featNum feat).getD "") st.numParcelMap _
              (fun he => hn he.symm)]
          exact h
        · rw [if_neg hcond]
          exact h
    case pos =>
      have hfn : featNum feat = some n := by
        rw [optStrTruthy_some_getD (featNum feat) hnum, hn]
      rw [featSightings_cons n feat hnum hfn, hn]
      cases hrec : alookup n st.numParcelMap with
      | none =>
        simp only [hrec]
        have hS : S = [] := by
          rw [hrec] at h
          cases S with
          | nil => rfl
          | cons s rest => rw [recordOf_cons] at h; cases h
        subst hS
        rw [alookup_append, hrec, alookup_cons]
        simp only [if_pos rfl, List.nil_append, recordOf_cons,
          findSome?_singleton]
        rfl
      | some r0 =>
        simp only [hrec]
        rw [hrec] at h
        cases S with
        | nil => rw [recordOf_nil] at h; cases h
        | cons s rest =>
          rw [recordOf_cons] at h
          have hr0 : r0 = ⟨List.findSome? (fun t => t.commune) (s :: rest),
              s.props⟩ := by
            injection h
          cases hq : List.findSome? (fun t => t.commune) (s :: rest) with
          | none =>
            have hfalse : optStrTruthy r0.commune = false := by
              rw [hr0]
              show optStrTruthy
                (List.findSome? (fun t => t.commune) (s :: rest)) = false
              rw [hq]
              rfl
            by_cases hct : optStrTruthy (featCommune feat) = true
            · rw [if_pos ⟨hfalse, hct⟩, alookup_updA_self, hrec,
                List.cons_append, recordOf_cons, ← List.cons_append,
                findSome?_append_of_none _ _ _ hq, findSome?_singleton]
              simp [hr0, storedCommune, hct]
            · rw [if_neg (fun hco => hct hco.2), hrec, hr0,
                List.cons_append, recordOf_cons, ← List.cons_append,
                findSome?_append_of_none _ _ _ hq, findSome?_singleton]
              simp [storedCommune, hct, hq]
          | some x =>
            obtain ⟨t0, ht0mem, ht0⟩ := List.exists_of_findSome?_eq_some hq
            have hxt : optStrTruthy (some x) = true := by
              cases hS t0 ht0mem with
              | inl hnone => rw [ht0] at hnone; exact Option.noConfusion hnone
              | inr htr => rw [ht0] at htr; exact htr
            have htrue : optStrTruthy r0.commune = true := by
              rw [hr0]
              show optStrTruthy
                (List.findSome? (fun t => t.commune) (s :: rest)) = true
              rw [hq]
              exact hxt
            rw [if_neg (by
              intro hco
              rw [htrue] at hco
              exact Bool.noConfusion hco.1), hrec, hr0,
              List.cons_append, recordOf_cons, ← List.cons_append,
              findSome?_append_of_some _ _ _ _ hq, hq]


theorem parcel_fold (n : String) (feats : List Feature) :
    ∀ (st : BuildState) (S : List Sighting),
      (∀ t ∈ S, goodSighting t) →
      alookup n st.numParcelMap = recordOf S →
      alookup n ((feats.foldl processFeature st).numParcelMap) =
        recordOf (S ++ feats.flatMap (featSightings n)) := by
  induction feats with
  | nil =>
    intro st S _ h
    simpa using h
  | cons f fs ih =>
    intro st S hS h
    rw [List.foldl_cons, List.flatMap_cons, ← List.append_assoc]
    refine ih (processFeature st f) (S ++ featSightings n f) ?_
      (parcel_step st f n S hS h)
    intro t ht
    cases List.mem_append.mp ht with
    | inl hin => exact hS t hin
    | inr hin => exact featSightings_good n f t hin

/-- Master invariant of the parcel lookup: the stored record for any
identifier is the first-seen property bag together with the first truthy
commune over that identifier's sightings, in processing order. -/
theorem parcel_master (files : List InputFile) (n : String) :
    alookup n (runBuilder files).numParcelMap =
      recordOf (sightings files n) := by
  rw [runBuilder_eq]
  have h0 : alookup n initState.numParcelMap = recordOf [] := rfl
  have hm := parcel_fold n (allFeatures files) initState []
    (fun t ht => absurd ht (List.not_mem_nil t)) h0
  simpa [sightings] using hm

theorem flatMap_replicate_singleton {α β : Type} (k : Nat) (f : α)
    (g : α → List β) (x : β) (h : g f = [x]) :
    (List.replicate k f).flatMap g = List.replicate k x := by
  induction k with
  | zero => rfl
  | succ m ih =>
    rw [List.replicate_succ, List.flatMap_cons, h, ih,
      List.replicate_succ, List.singleton_append]

/-! ### Canonicalizer lemmas -/

theorem normalizeName_some (jv : JsVal) :
    normalizeName (some jv) =
      if truthy jv then
        match alookup (jsUpper (jsTrim (jsToString jv)))
            COMMUNE_SPELLING_VARIANTS with
        | some c =>
          if truthy (.str c) then some c
          else some (jsUpper (jsTrim (jsToString jv)))
        | none => some (jsUpper (jsTrim (jsToString jv)))
      else none := rfl

theorem variant_value_cases (u c : String)
    (h : alookup u COMMUNE_SPELLING_VARIANTS = some c) :
    c = "DINDEFELO" ∨ c = "FONGOLIMBI" := by
  unfold COMMUNE_SPELLING_VARIANTS at h
  rw [alookup_cons] at h
  split at h
  · injection h with h'
    exact Or.inl h'.symm
  · rw [alookup_cons] at h
    split at h
    · injection h with h'
      exact Or.inr h'.symm
    · exact Option.noConfusion h

theorem variant_value_truthy (u c : String)
    (h : alookup u COMMUNE_SPELLING_VARIANTS = some c) :
    truthy (.str c) = true := by
  cases variant_value_cases u c h with
  | inl he => rw [he]; decide
  | inr he => rw [he]; decide

theorem str_data_empty_iff (s : String) :
    s.data.isEmpty = true ↔ s = "" := by
  rw [List.isEmpty_iff]
  constructor
  · intro hd
    apply String.ext
    rw [hd]
  · intro he
    rw [he]

/-- When the input is truthy, `normalizeName` returns some string. -/
theorem normalizeName_truthy_some (jv : JsVal) (ht : truthy jv = true) :
    ∃ s, normalizeName (some jv) = some s := by
  rw [normalizeName_some, if_pos ht]
  cases halk : alookup (jsUpper (jsTrim (jsToString jv)))
      COMMUNE_SPELLING_VARIANTS with
  | some c =>
    by_cases htc : truthy (.str c) = true
    · refine ⟨c, ?_⟩
      show (if truthy (JsVal.str c) = true then some c
        else some (jsUpper (jsTrim (jsToString jv)))) = some c
      rw [if_pos htc]
    · refine ⟨jsUpper (jsTrim (jsToString jv)), ?_⟩
      show (if truthy (JsVal.str c) = true then some c
        else some (jsUpper (jsTrim (jsToString jv)))) =
          some (jsUpper (jsTrim (jsToString jv)))
      rw [if_neg htc]
  | none => exact ⟨jsUpper (jsTrim (jsToString jv)), rfl⟩

theorem resolveCommune_eq (props : Bag) :
    resolveCommune props =
      if optStrTruthy (normalizeName (firstTruthyVal props communeKeys)) then
        normalizeName (firstTruthyVal props communeKeys)
      else
        match alookup "source_file" props with
        | some sf =>
          if truthy sf then extractCommuneFromSourceFile sf
          else normalizeName (firstTruthyVal props communeKeys)
        | none => normalizeName (firstTruthyVal props communeKeys) := rfl

/-! ### The claims -/

/-- C1: running the lookup builder on exactly one input file with the
three features `{Num_parcel:"A1", commune:"dindefello"}`,
`{Num_parcel:"A1"}` and `{IDPARCEL:"B2", CCRCA:"KOAR"}` produces the
parcel lookup with A1 normalized to DINDEFELO (first property bag kept)
and B2 under KOAR, and the commune lookup with DINDEFELO and KOAR at
count 1 holding those identifiers and the other 15 registry entries at
`count 0, parcels []`. -/
theorem claim_C1 :
    runBuilder
        [some ⟨some
          [⟨some [("Num_parcel", .str "A1"), ("commune", .str "dindefello")]⟩,
           ⟨some [("Num_parcel", .str "A1")]⟩,
           ⟨some [("IDPARCEL", .str "B2"), ("CCRCA", .str "KOAR")]⟩]⟩] =
      ⟨[("A1", ⟨some "DINDEFELO",
          [("Num_parcel", .str "A1"), ("commune", .str "dindefello")]⟩),
        ("B2", ⟨some "KOAR",
          [("IDPARCEL", .str "B2"), ("CCRCA", .str "KOAR")]⟩)],
       [("BALLOU", ⟨0, []⟩), ("GABOU", ⟨0, []⟩), ("MOUDERY", ⟨0, []⟩),
        ("BALA", ⟨0, []⟩), ("KOAR", ⟨1, ["B2"]⟩),
        ("SINTHIOU MALEME", ⟨0, []⟩), ("NDOGA BABACAR", ⟨0, []⟩),
        ("NETTEBOULOU", ⟨0, []⟩), ("MISSIRAH", ⟨0, []⟩),
        ("BANDAFASSI", ⟨0, []⟩), ("DINDEFELO", ⟨1, ["A1"]⟩),
        ("TOMBORONKOTO", ⟨0, []⟩), ("DIMBOLI", ⟨0, []⟩),
        ("FONGOLIMBI", ⟨0, []⟩), ("MEDINA BAFFE", ⟨0, []⟩),
        ("BEMBOU", ⟨0, []⟩), ("SABODALA", ⟨0, []⟩)]⟩ := by
  decide

/-- C2: on every run, over any input file list including the empty one,
the commune lookup's keys are exactly the 17 official registry names (in
registry order), and a registry name with no attributed sighting keeps
the initialized entry `count 0, parcels []`. -/
theorem claim_C2 (files : List InputFile) :
    (runBuilder files).communeMap.map Prod.fst = OFFICIAL_COMMUNES ∧
    ∀ c, c ∈ OFFICIAL_COMMUNES →
      ∃ agg, alookup c (runBuilder files).communeMap = some agg ∧
        (attributions files c = [] → agg = ⟨0, []⟩) := by
  refine ⟨communeMap_keys files, ?_⟩
  intro c hc
  refine ⟨⟨(attributions files c).length, (attributions files c).take 1000⟩,
    commune_master files c hc, ?_⟩
  intro hnil
  rw [hnil]
  rfl

theorem claim_C2_witness :
    (runBuilder []).communeMap.map Prod.fst = OFFICIAL_COMMUNES ∧
    ∃ agg, alookup "BALLOU" (runBuilder []).communeMap = some agg ∧
      (attributions [] "BALLOU" = [] → agg = ⟨0, []⟩) :=
  ⟨(claim_C2 []).1, (claim_C2 []).2 "BALLOU" (by decide)⟩

/-- C3: for an identifier sighted more than once, the stored record keeps
the first sighting's property bag, and its commune is the first truthy
commune over the sightings in processing order — so a set commune is never
overwritten by later nulls or conflicting values, and a null commune is
backfilled by the first later non-null one. -/
theorem claim_C3 (files : List InputFile) (n : String)
    (h : 1 < (sightings files n).length) :
    ∃ s rest, sightings files n = s :: rest ∧
      alookup n (runBuilder files).numParcelMap =
        some ⟨List.findSome? (fun t => t.commune) (sightings files n),
              s.props⟩ := by
  cases hS : sightings files n with
  | nil => rw [hS] at h; simp at h
  | cons s rest =>
    refine ⟨s, rest, rfl, ?_⟩
    have hm := parcel_master files n
    rw [hS, recordOf_cons] at hm
    exact hm

theorem claim_C3_witness :
    1 < (sightings
      [some ⟨some [⟨some [("Num_parcel", .str "W1")]⟩,
        ⟨some [("Num_parcel", .str "W1"), ("commune", .str "koar")]⟩]⟩]
      "W1").length ∧
    ∃ s rest, sightings
        [some ⟨some [⟨some [("Num_parcel", .str "W1")]⟩,
          ⟨some [("Num_parcel", .str "W1"), ("commune", .str "koar")]⟩]⟩]
        "W1" = s :: rest ∧
      alookup "W1" (runBuilder
        [some ⟨some [⟨some [("Num_parcel", .str "W1")]⟩,
          ⟨some [("Num_parcel", .str "W1"), ("commune", .str "koar")]⟩]⟩]
        ).numParcelMap =
        some ⟨List.findSome? (fun t => t.commune) (sightings
          [some ⟨some [⟨some [("Num_parcel", .str "W1")]⟩,
            ⟨some [("Num_parcel", .str "W1"), ("commune", .str "koar")]⟩]⟩]
          "W1"), s.props⟩ :=
  ⟨by decide,
   claim_C3
     [some ⟨some [⟨some [("Num_parcel", .str "W1")]⟩,
       ⟨some [("Num_parcel", .str "W1"), ("commune", .str "koar")]⟩]⟩]
     "W1" (by decide)⟩

/-- C9: a file whose contents fail to parse is skipped without changing
the maps built so far, and the run over the remaining files is exactly the
run with that file deleted, so every later file still contributes. -/
theorem claim_C9 (fs₁ fs₂ : List InputFile) (st : BuildState) :
    processFile st none = st ∧
    runBuilder (fs₁ ++ none :: fs₂) = runBuilder (fs₁ ++ fs₂) := by
  refine ⟨rfl, ?_⟩
  unfold runBuilder
  rw [List.foldl_append, List.foldl_append, List.foldl_cons]
  rfl

/-- C10: at the end of every run, each official commune's aggregate
satisfies `parcels = (attributions).take 1000` — the identifiers of the
first `min count 1000` attributed sightings in processing order — with
`count` the full attribution count and `parcels.length = min count
1000`. -/
theorem claim_C10 (files : List InputFile) (c : String)
    (hc : c ∈ OFFICIAL_COMMUNES) :
    ∃ agg, alookup c (runBuilder files).communeMap = some agg ∧
      agg.count = (attributions files c).length ∧
      agg.parcels = (attributions files c).take 1000 ∧
      agg.parcels.length = min agg.count 1000 := by
  refine ⟨⟨(attributions files c).length, (attributions files c).take 1000⟩,
    commune_master files c hc, rfl, rfl, ?_⟩
  show ((attributions files c).take 1000).length = _
  rw [List.length_take]
  exact Nat.min_comm 1000 _

theorem claim_C10_witness :
    ∃ agg, alookup "KOAR" (runBuilder []).communeMap = some agg ∧
      agg.count = (attributions [] "KOAR").length ∧
      agg.parcels = (attributions [] "KOAR").take 1000 ∧
      agg.parcels.length = min agg.count 1000 :=
  claim_C10 [] "KOAR" (by decide)

/-- One feature attributed to BALLOU, used to exercise the 1000-entry
cap. -/
def capFeat : Feature :=
  ⟨some [("Num_parcel", JsVal.str "X"), ("commune", JsVal.str "BALLOU")]⟩

/-- A run with 1001 sightings attributed to BALLOU. -/
def capFiles : List InputFile :=
  [some ⟨some (List.replicate 1001 capFeat)⟩]

/-- C4: in every run, each official commune's `parcels` list never
exceeds 1000 entries while `count` counts every attributed sighting
without deduplication — and `count` can in fact exceed 1000 (a run with
1001 sightings of one identifier yields count 1001 with 1000 stored
parcels). -/
theorem claim_C4 :
    (∀ (files : List InputFile) (c : String), c ∈ OFFICIAL_COMMUNES →
      ∃ agg, alookup c (runBuilder files).communeMap = some agg ∧
        agg.parcels.length ≤ 1000 ∧
        agg.count = (attributions files c).length) ∧
    (∃ (files : List InputFile) (agg : CommuneAgg),
      alookup "BALLOU" (runBuilder files).communeMap = some agg ∧
        1000 < agg.count ∧ agg.parcels.length = 1000) := by
  constructor
  · intro files c hc
    refine ⟨⟨(attributions files c).length, (attributions files c).take 1000⟩,
      commune_master files c hc, ?_, rfl⟩
    show ((attributions files c).take 1000).length ≤ 1000
    rw [List.length_take]
    omega
  · have hall : allFeatures capFiles = List.replicate 1001 capFeat := by
      unfold allFeatures capFiles
      rw [List.flatMap_cons]
      show List.replicate 1001 capFeat ++ ([] : List Feature) = _
      rw [List.append_nil]
    have hattr : attributions capFiles "BALLOU" =
        List.replicate 1001 "X" := by
      unfold attributions
      rw [hall, flatMap_replicate_singleton 1001 capFeat _ "X" (by decide)]
    have hagg := commune_master capFiles "BALLOU" (by decide)
    rw [hattr, List.length_replicate] at hagg
    refine ⟨capFiles, ⟨1001, (List.replicate 1001 "X").take 1000⟩, hagg,
      by show (1000 : Nat) < 1001; omega, ?_⟩
    show ((List.replicate 1001 "X").take 1000).length = 1000
    rw [List.length_take, List.length_replicate]
    omega

theorem claim_C4_witness :
    ∃ agg, alookup "BALLOU" (runBuilder []).communeMap = some agg ∧
      agg.parcels.length ≤ 1000 ∧
      agg.count = (attributions [] "BALLOU").length :=
  claim_C4.1 [] "BALLOU" (by decide)

/-- C5 as stated is false: when an earlier sighting has already set a
record's commune, a later sighting with a non-registry commune leaves the
aggregates unchanged but does NOT store its commune string on the record.
Here feature 2 resolves id "A" and commune "VILLEB" (not in the
registry); the run leaves every aggregate at its initial value, yet the
stored record keeps "VILLEA" from feature 1. -/
theorem claim_C5_counterexample :
    featNum ⟨some [("Num_parcel", .str "A"), ("commune", .str "VILLEB")]⟩ =
      some "A" ∧
    featCommune
      ⟨some [("Num_parcel", .str "A"), ("commune", .str "VILLEB")]⟩ =
      some "VILLEB" ∧
    "VILLEB" ∉ OFFICIAL_COMMUNES ∧
    (runBuilder
        [some ⟨some
          [⟨some [("Num_parcel", .str "A"), ("commune", .str "VILLEA")]⟩,
           ⟨some [("Num_parcel", .str "A"), ("commune", .str "VILLEB")]⟩]⟩]
      ).communeMap = initState.communeMap ∧
    alookup "A" (runBuilder
        [some ⟨some
          [⟨some [("Num_parcel", .str "A"), ("commune", .str "VILLEA")]⟩,
           ⟨some [("Num_parcel", .str "A"), ("commune", .str "VILLEB")]⟩]⟩]
      ).numParcelMap =
      some ⟨some "VILLEA",
        [("Num_parcel", .str "A"), ("commune", .str "VILLEA")]⟩ ∧
    (some "VILLEA" : Option String) ≠ some "VILLEB" := by
  decide

/-- C5 amended: a feature with a truthy identifier and a truthy resolved
commune outside the registry leaves the commune map entirely unchanged
(no increment, no append, no new key), and its commune string is stored
on the record exactly when the record is created by this sighting or its
stored commune is still null: an already-set (truthy) stored commune
means the whole record — commune and property bag — is retained
unchanged (first-non-null-wins). -/
theorem claim_C5_amended (st : BuildState) (feat : Feature) (c n : String)
    (hkeys : st.communeMap.map Prod.fst = OFFICIAL_COMMUNES)
    (hc : c ∉ OFFICIAL_COMMUNES)
    (hnum : featNum feat = some n) (hn : ¬ n.data.isEmpty = true)
    (hcom : featCommune feat = some c) (hce : ¬ c.data.isEmpty = true) :
    (processFeature st feat).communeMap = st.communeMap ∧
    (alookup n st.numParcelMap = none →
      alookup n (processFeature st feat).numParcelMap =
        some ⟨some c, featProps feat⟩) ∧
    (∀ r0, alookup n st.numParcelMap = some r0 → r0.commune = none →
      alookup n (processFeature st feat).numParcelMap =
        some ⟨some c, r0.properties⟩) ∧
    (∀ r0, alookup n st.numParcelMap = some r0 →
      optStrTruthy r0.commune = true →
      alookup n (processFeature st feat).numParcelMap = some r0) := by
  have hnt : optStrTruthy (featNum feat) = true := by
    rw [hnum]
    show (!n.data.isEmpty) = true
    cases hx : n.data.isEmpty
    · rfl
    · exact absurd hx hn
  have hgd : (featNum feat).getD "" = n := by rw [hnum]; rfl
  have hct : optStrTruthy (some c) = true := by
    show (!c.data.isEmpty) = true
    cases hx : c.data.isEmpty
    · rfl
    · exact absurd hx hce
  have hcnone : alookup c st.communeMap = none :=
    alookup_eq_none_of_not_mem_fst c _ (by rw [hkeys]; exact hc)
  rw [processFeature_eq, if_pos hnt]
  refine ⟨?_, ?_, ?_, ?_⟩
  · show updateCommune st.communeMap (featCommune feat)
      ((featNum feat).getD "") = st.communeMap
    rw [hcom, updateCommune_some, if_neg hce]
    simp only [hcnone]
  · intro h0
    show alookup n (updateParcel st.numParcelMap ((featNum feat).getD "")
      (featCommune feat) (featProps feat)) = _
    rw [hgd, hcom]
    unfold updateParcel
    simp only [h0]
    rw [alookup_append, h0, alookup_cons]
    simp [hct]
  · intro r0 h0 hr0c
    show alookup n (updateParcel st.numParcelMap ((featNum feat).getD "")
      (featCommune feat) (featProps feat)) = _
    rw [hgd, hcom]
    unfold updateParcel
    simp only [h0]
    rw [if_pos ⟨by rw [hr0c]; rfl, hct⟩, alookup_updA_self, h0,
      Option.map_some']
  · intro r0 h0 htr
    show alookup n (updateParcel st.numParcelMap ((featNum feat).getD "")
      (featCommune feat) (featProps feat)) = _
    rw [hgd, hcom]
    unfold updateParcel
    simp only [h0]
    rw [if_neg (by
      intro hco
      rw [htr] at hco
      exact Bool.noConfusion hco.1)]
    exact h0

theorem claim_C5_amended_witness :
    (processFeature initState
        ⟨some [("Num_parcel", .str "Z9"), ("commune", .str "VILLEC")]⟩
      ).communeMap = initState.communeMap ∧
    (alookup "Z9" initState.numParcelMap = none →
      alookup "Z9" (processFeature initState
          ⟨some [("Num_parcel", .str "Z9"), ("commune", .str "VILLEC")]⟩
        ).numParcelMap =
        some ⟨some "VILLEC",
          featProps ⟨some [("Num_parcel", .str "Z9"),
            ("commune", .str "VILLEC")]⟩⟩) ∧
    (∀ r0, alookup "Z9" initState.numParcelMap = some r0 →
      r0.commune = none →
      alookup "Z9" (processFeature initState
          ⟨some [("Num_parcel", .str "Z9"), ("commune", .str "VILLEC")]⟩
        ).numParcelMap = some ⟨some "VILLEC", r0.properties⟩) ∧
    (∀ r0, alookup "Z9" initState.numParcelMap = some r0 →
      optStrTruthy r0.commune = true →
      alookup "Z9" (processFeature initState
          ⟨some [("Num_parcel", .str "Z9"), ("commune", .str "VILLEC")]⟩
        ).numParcelMap = some r0) :=
  claim_C5_amended initState
    ⟨some [("Num_parcel", .str "Z9"), ("commune", .str "VILLEC")]⟩
    "VILLEC" "Z9" (by decide) (by decide) (by decide) (by decide)
    (by decide) (by decide)

/-- C6 as stated is false: `normalizeName` returns null for EVERY falsy
input, not only null/empty/undefined — the number 0 and the boolean
`false` are JSON scalars that are neither null, empty nor undefined, yet
canonicalize to null. -/
theorem claim_C6_counterexample :
    normalizeName (some (JsVal.num 0)) = none ∧
    JsVal.num 0 ≠ JsVal.null ∧ JsVal.num 0 ≠ JsVal.str "" ∧
    normalizeName (some (JsVal.bool false)) = none := by
  decide

/-- C6 amended: `normalizeName` returns null exactly when its input is
absent or falsy (null, empty string, zero, false); for every truthy input
it returns the coerced, trimmed, uppercased string, replaced by its
mapped value when that string is a key of the spelling-variant map. -/
theorem claim_C6_amended (v : Option JsVal) :
    (normalizeName v = none ↔
      (v = none ∨ ∃ jv, v = some jv ∧ truthy jv = false)) ∧
    (∀ jv, v = some jv → truthy jv = true →
      normalizeName v =
        some ((alookup (jsUpper (jsTrim (jsToString jv)))
          COMMUNE_SPELLING_VARIANTS).getD
            (jsUpper (jsTrim (jsToString jv))))) := by
  constructor
  · cases v with
    | none =>
      constructor
      · intro _
        exact Or.inl rfl
      · intro _
        rfl
    | some jv =>
      by_cases ht : truthy jv = true
      · obtain ⟨s, hs⟩ := normalizeName_truthy_some jv ht
        rw [hs]
        constructor
        · intro h
          exact Option.noConfusion h
        · rintro (h | ⟨jv', hj, htf⟩)
          · exact Option.noConfusion h
          · injection hj with hj'
            subst hj'
            rw [ht] at htf
            exact Bool.noConfusion htf
      · have htf : truthy jv = false := by
          cases hx : truthy jv
          · rfl
          · exact absurd hx ht
        rw [normalizeName_some, if_neg ht]
        constructor
        · intro _
          exact Or.inr ⟨jv, rfl, htf⟩
        · intro _
          rfl
  · intro jv hv ht
    subst hv
    rw [normalizeName_some, if_pos ht]
    cases halk : alookup (jsUpper (jsTrim (jsToString jv)))
        COMMUNE_SPELLING_VARIANTS with
    | some c =>
      show (if truthy (JsVal.str c) = true then some c
        else some (jsUpper (jsTrim (jsToString jv)))) = _
      rw [if_pos (variant_value_truthy _ c halk)]
      rfl
    | none => rfl

theorem claim_C6_witness :
    normalizeName (some (JsVal.str " Dindefello ")) =
      some ((alookup (jsUpper (jsTrim (jsToString
          (JsVal.str " Dindefello ")))) COMMUNE_SPELLING_VARIANTS).getD
        (jsUpper (jsTrim (jsToString (JsVal.str " Dindefello "))))) :=
  (claim_C6_amended (some (JsVal.str " Dindefello "))).2
    (JsVal.str " Dindefello ") rfl (by decide)

/-- C7 as stated is false: the canonicalizer is not idempotent on its
whole range.  The whitespace-only string produces the non-null result
`""`, and canonicalizing `""` returns null, not `""`. -/
theorem claim_C7_counterexample :
    normalizeName (some (JsVal.str " ")) = some "" ∧
    normalizeName (some (JsVal.str "")) = none := by
  decide

/-- C7 amended: canonicalization is idempotent on every non-empty result
(only whitespace-only inputs give the empty result); every official
registry name canonicalizes to itself, and any spelling of `dindefello`
— mixed case, surrounding whitespace — canonicalizes to `DINDEFELO`. -/
theorem claim_C7_amended :
    (∀ (v : Option JsVal) (s : String),
      normalizeName v = some s → s ≠ "" →
      normalizeName (some (JsVal.str s)) = some s) ∧
    (∀ c, c ∈ OFFICIAL_COMMUNES →
      normalizeName (some (JsVal.str c)) = some c) ∧
    (∀ s : String, jsUpper (jsTrim s) = "DINDEFELLO" →
      normalizeName (some (JsVal.str s)) = some "DINDEFELO") := by
  refine ⟨?_, by decide, ?_⟩
  · intro v s h hne
    cases v with
    | none => exact Option.noConfusion h
    | some jv =>
      by_cases ht : truthy jv = true
      · rw [normalizeName_some, if_pos ht] at h
        cases halk : alookup (jsUpper (jsTrim (jsToString jv)))
            COMMUNE_SPELLING_VARIANTS with
        | some c =>
          rw [halk] at h
          have h' : (if truthy (JsVal.str c) = true then some c
              else some (jsUpper (jsTrim (jsToString jv)))) = some s := h
          rw [if_pos (variant_value_truthy _ c halk)] at h'
          have hcs : c = s := by injection h'
          subst hcs
          cases variant_value_cases _ c halk with
          | inl he => rw [he]; decide
          | inr he => rw [he]; decide
        | none =>
          rw [halk] at h
          have h' : some (jsUpper (jsTrim (jsToString jv))) = some s := h
          have hus : jsUpper (jsTrim (jsToString jv)) = s := by injection h'
          have hts : truthy (JsVal.str s) = true := by
            show (!s.data.isEmpty) = true
            cases hx : s.data.isEmpty
            · rfl
            · exact absurd ((str_data_empty_iff s).mp hx) hne
          rw [normalizeName_some, if_pos hts]
          have hfix : jsUpper (jsTrim (jsToString (JsVal.str s))) = s := by
            show jsUpper (jsTrim s) = s
            rw [← hus, jsUpper_jsTrim_fixed]
          rw [hfix]
          rw [hus] at halk
          simp only [halk]
      · rw [normalizeName_some, if_neg ht] at h
        exact Option.noConfusion h
  · intro s hs
    have hsne : truthy (JsVal.str s) = true := by
      show (!s.data.isEmpty) = true
      cases hx : s.data.isEmpty
      · rfl
      · exfalso
        have hse : s = "" := (str_data_empty_iff s).mp hx
        rw [hse] at hs
        exact absurd hs (by decide)
    rw [normalizeName_some, if_pos hsne]
    have hjs : jsToString (JsVal.str s) = s := rfl
    rw [hjs, hs]
    decide

theorem claim_C7_witness :
    normalizeName (some (JsVal.str "ABC")) = some "ABC" ∧
    normalizeName (some (JsVal.str "KOAR")) = some "KOAR" ∧
    normalizeName (some (JsVal.str " Dindefello ")) = some "DINDEFELO" :=
  ⟨claim_C7_amended.1 (some (JsVal.str "abc")) "ABC" (by decide) (by decide),
   claim_C7_amended.2.1 "KOAR" (by decide),
   claim_C7_amended.2.2 " Dindefello " (by decide)⟩

/-- C8 as stated is false: a direct commune field that is present and
truthy but whitespace-only canonicalizes to the empty string, and the
builder then DOES consult the `source_file` fallback instead of returning
that canonicalization. -/
theorem claim_C8_counterexample :
    alookup "commune" [("commune", JsVal.str " "),
      ("source_file", JsVal.str "Z_BALLOU.GEOJSON")] = some (JsVal.str " ") ∧
    truthy (JsVal.str " ") = true ∧
    firstTruthyVal [("commune", JsVal.str " "),
      ("source_file", JsVal.str "Z_BALLOU.GEOJSON")] communeKeys =
      some (JsVal.str " ") ∧
    normalizeName (some (JsVal.str " ")) = some "" ∧
    resolveCommune [("commune", JsVal.str " "),
      ("source_file", JsVal.str "Z_BALLOU.GEOJSON")] = some "BALLOU" ∧
    (some "BALLOU" : Option String) ≠ some "" := by
  decide

/-- C8 amended: the extractor returns the canonicalization of the first
truthy direct field when that canonicalization is itself truthy
(non-empty); the `source_file` fallback — uppercase the value, substring
test against each registry name in registry order, then against the
underscored names — is consulted exactly when no direct field is truthy
or the canonicalization is empty; the SINTHIOU_MALEME filename resolves
to `SINTHIOU MALEME`. -/
theorem claim_C8_amended :
    (∀ (props : Bag) (v : JsVal),
      firstTruthyVal props communeKeys = some v →
      optStrTruthy (normalizeName (some v)) = true →
      resolveCommune props = normalizeName (some v)) ∧
    (∀ (props : Bag) (v : JsVal),
      firstTruthyVal props communeKeys = some v →
      optStrTruthy (normalizeName (some v)) = false →
      resolveCommune props =
        (match alookup "source_file" props with
         | some sf =>
           if truthy sf then extractCommuneFromSourceFile sf
           else normalizeName (some v)
         | none => normalizeName (some v))) ∧
    (∀ props : Bag,
      firstTruthyVal props communeKeys = none →
      resolveCommune props =
        (match alookup "source_file" props with
         | some sf =>
           if truthy sf then extractCommuneFromSourceFile sf
           else none
         | none => none)) ∧
    resolveCommune
      [("source_file", .str "unjoined_parcels_SINTHIOU_MALEME.geojson"),
       ("Num_parcel", .str "C3")] = some "SINTHIOU MALEME" := by
  refine ⟨?_, ?_, ?_, by decide⟩
  · intro props v hft htr
    rw [resolveCommune_eq, hft, if_pos htr]
  · intro props v hft htr
    rw [resolveCommune_eq, hft, if_neg (by rw [htr]; decide)]
  · intro props hft
    rw [resolveCommune_eq, hft,
      if_neg (by decide : ¬ optStrTruthy (normalizeName none) = true)]
    rfl

theorem claim_C8_witness :
    resolveCommune [("CCRCA", JsVal.str "koar")] =
      normalizeName (some (JsVal.str "koar")) ∧
    resolveCommune [("commune", JsVal.str " "),
        ("source_file", JsVal.str "Z_BALLOU.GEOJSON")] =
      (match alookup "source_file" [("commune", JsVal.str " "),
          ("source_file", JsVal.str "Z_BALLOU.GEOJSON")] with
       | some sf =>
         if truthy sf then extractCommuneFromSourceFile sf
         else normalizeName (some (JsVal.str " "))
       | none => normalizeName (some (JsVal.str " "))) ∧
    resolveCommune [("source_file", JsVal.str "A_GABOU.geojson")] =
      (match alookup "source_file"
          [("source_file", JsVal.str "A_GABOU.geojson")] with
       | some sf =>
         if truthy sf then extractCommuneFromSourceFile sf
         else none
       | none => none) :=
  ⟨claim_C8_amended.1 [("CCRCA", JsVal.str "koar")] (JsVal.str "koar")
      (by decide) (by decide),
   claim_C8_amended.2.1 [("commune", JsVal.str " "),
      ("source_file", JsVal.str "Z_BALLOU.GEOJSON")] (JsVal.str " ")
      (by decide) (by decide),
   claim_C8_amended.2.2.1 [("source_file", JsVal.str "A_GABOU.geojson")]
      (by decide)⟩

end PTD
